import Mathlib

/-!
Verification of the PBR fragment-shader core of this repository
(`src/shader/pbr.frag.ts`).  The GLSL shader is shallowly embedded over the
reals: `vec3`/`vec4` become record types of real components, GLSL componentwise
arithmetic becomes componentwise real arithmetic, `pow` with a real exponent
becomes `Real.rpow`, and division is the totalized real division (`x / 0 = 0`).
The fragment entry point `main`, its light loop, and every helper function of
the shader are translated one definition per source function, keeping the
source names.  Spec-side models (for refinement claims) are defined separately
from the spec's wording and compared with the source functions.
-/

namespace PBR

noncomputable section

/-- Three-component vector, modelling GLSL `vec3` over the reals. -/
structure Vec3 where
  x : ℝ
  y : ℝ
  z : ℝ

/-- Four-component vector, modelling GLSL `vec4` as an rgb part plus alpha. -/
structure Vec4 where
  rgb : Vec3
  a : ℝ

instance : Zero Vec3 := ⟨⟨0, 0, 0⟩⟩

/-- Componentwise addition (GLSL `+` on `vec3`). -/
def Vec3.add (u v : Vec3) : Vec3 := ⟨u.x + v.x, u.y + v.y, u.z + v.z⟩

instance : Add Vec3 := ⟨Vec3.add⟩

instance : Sub Vec3 := ⟨fun u v => ⟨u.x - v.x, u.y - v.y, u.z - v.z⟩⟩

instance : Mul Vec3 := ⟨fun u v => ⟨u.x * v.x, u.y * v.y, u.z * v.z⟩⟩

instance : Div Vec3 := ⟨fun u v => ⟨u.x / v.x, u.y / v.y, u.z / v.z⟩⟩

instance : HMul Vec3 ℝ Vec3 := ⟨fun v t => ⟨v.x * t, v.y * t, v.z * t⟩⟩

instance : HDiv Vec3 ℝ Vec3 := ⟨fun v t => ⟨v.x / t, v.y / t, v.z / t⟩⟩

instance : AddCommMonoid Vec3 where
  add_assoc u v w := by
    cases u; cases v; cases w
    show Vec3.add (Vec3.add _ _) _ = Vec3.add _ (Vec3.add _ _)
    simp [Vec3.add]; refine ⟨by ring, by ring, by ring⟩
  zero_add v := by
    cases v
    show Vec3.add ⟨0, 0, 0⟩ _ = _
    simp [Vec3.add]
  add_zero v := by
    cases v
    show Vec3.add _ ⟨0, 0, 0⟩ = _
    simp [Vec3.add]
  add_comm u v := by
    cases u; cases v
    show Vec3.add _ _ = Vec3.add _ _
    simp [Vec3.add]; refine ⟨by ring, by ring, by ring⟩
  nsmul := nsmulRec

/-- GLSL `dot` on `vec3`. -/
def dot (u v : Vec3) : ℝ := u.x * v.x + u.y * v.y + u.z * v.z

/-- GLSL `length` on `vec3`. -/
def length (v : Vec3) : ℝ := Real.sqrt (dot v v)

/-- GLSL `normalize` on `vec3` (`v / length v` componentwise; with totalized
division the zero vector normalizes to the zero vector). -/
def normalize (v : Vec3) : Vec3 := ⟨v.x / length v, v.y / length v, v.z / length v⟩

/-- GLSL `vec3(t)` splat constructor. -/
def v3 (t : ℝ) : Vec3 := ⟨t, t, t⟩

/-- GLSL `mix(u, v, t) = u * (1 - t) + v * t`, componentwise with scalar weight. -/
def mix (u v : Vec3) (t : ℝ) : Vec3 :=
  ⟨u.x * (1 - t) + v.x * t, u.y * (1 - t) + v.y * t, u.z * (1 - t) + v.z * t⟩

/-- The `PointLight` struct of the fragment shader. -/
structure PointLight where
  pos : Vec3
  color : Vec3
  intensity : ℝ

/-- Per-channel branch of the shader's `sRGBToLinear` (the componentwise `mix`
with the `lessThanEqual` mask selects exactly one of the two arms per channel). -/
def sRGBToLinearC (c : ℝ) : ℝ :=
  if c ≤ 0.04045 then c * 0.0773993808
  else (c * 0.9478672986 + 0.0521327014) ^ (2.4 : ℝ)

/-- `sRGBToLinear` from the shader; alpha is passed through unchanged. -/
def sRGBToLinear (value : Vec4) : Vec4 :=
  ⟨⟨sRGBToLinearC value.rgb.x, sRGBToLinearC value.rgb.y, sRGBToLinearC value.rgb.z⟩,
   value.a⟩

/-- Per-channel branch of the shader's `LinearTosRGB`. -/
def LinearTosRGBC (c : ℝ) : ℝ :=
  if c ≤ 0.0031308 then c * 12.92
  else c ^ (0.41666 : ℝ) * 1.055 - 0.055

/-- `LinearTosRGB` from the shader; alpha is passed through unchanged. -/
def LinearTosRGB (value : Vec4) : Vec4 :=
  ⟨⟨LinearTosRGBC value.rgb.x, LinearTosRGBC value.rgb.y, LinearTosRGBC value.rgb.z⟩,
   value.a⟩

/-- `calculatePointLight` from the shader: inverse-square point-light falloff. -/
def calculatePointLight (light : PointLight) (position : Vec3) : Vec3 :=
  let w_i := light.pos - position
  let distance := length w_i
  light.color * (light.intensity / (4 * 3.14159 * distance * distance))

/-- `tonemap` from the shader: per-channel Reinhard operator. -/
def tonemap (color : Vec3) : Vec3 := color / (color + v3 1)

/-- `calculateDiffuseBRDF` from the shader: Lambertian `albedo / 3.14159`. -/
def calculateDiffuseBRDF (albedo : Vec3) : Vec3 := albedo / (3.14159 : ℝ)

/-- Denominator computed by `calculateDistributionGGX` (the two `denom` lines of
the source), named separately so that claims about the division guard can refer
to it. -/
def GGXdenom (normal halfVector : Vec3) (roughness : ℝ) : ℝ :=
  let a2 := roughness * roughness
  let nDotH := max (dot normal halfVector) 0
  let nDotH2 := nDotH * nDotH
  let denom := nDotH2 * (a2 - 1) + 1
  3.14159 * denom * denom

/-- `calculateDistributionGGX` from the shader (GGX/Trowbridge-Reitz). -/
def calculateDistributionGGX (normal halfVector : Vec3) (roughness : ℝ) : ℝ :=
  (roughness * roughness) / GGXdenom normal halfVector roughness

/-- `calculateGeometrySchlick` from the shader. -/
def calculateGeometrySchlick (normal dir : Vec3) (k : ℝ) : ℝ :=
  let ndot := max (dot normal dir) 0
  ndot / (ndot * (1 - k) + k)

/-- `calculateGeometrySmith` from the shader. -/
def calculateGeometrySmith (normal w_i w_o : Vec3) (k : ℝ) : ℝ :=
  calculateGeometrySchlick normal w_i k * calculateGeometrySchlick normal w_o k

/-- `calculateFresnelSchlick` from the shader. -/
def calculateFresnelSchlick (w_i w_o F0 : Vec3) : Vec3 :=
  let h := normalize (w_i + w_o)
  let VoH := max (dot w_o h) 0
  F0 + (v3 1 - F0) * ((1 - VoH) ^ (5 : ℕ))

/-- `calculateSpecularBRDF` from the shader.  Note that `F` is computed but,
exactly as in the source, not used in the returned value. -/
def calculateSpecularBRDF (albedo normal w_o w_i : Vec3) (roughness metallic : ℝ)
    (F0 : Vec3) : Vec3 :=
  let k := ((roughness + 1) * (roughness + 1)) / 8
  let D := calculateDistributionGGX normal (normalize (w_i + w_o)) roughness
  let F := calculateFresnelSchlick w_i w_o F0
  let G := calculateGeometrySmith normal w_i w_o k
  v3 ((D * G) / (4 * max (dot w_o normal) 0.00001 * max (dot w_i normal) 0.00001))

/-- `calculateBRDF` from the shader: one light's outgoing-radiance contribution. -/
def calculateBRDF (light : PointLight) (position normal w_o : Vec3)
    (roughness metallic : ℝ) (albedo : Vec3) : Vec3 :=
  let w_i := normalize (light.pos - position)
  let F0 := mix (v3 0.04) albedo metallic
  let kS := calculateFresnelSchlick w_i w_o F0
  let specularBRDF := kS * calculateSpecularBRDF albedo normal w_o w_i roughness metallic F0
  let diffuseBRDF := (v3 1 - kS) * calculateDiffuseBRDF albedo * (1 - metallic)
  (diffuseBRDF + specularBRDF) * calculatePointLight light position * max (dot normal w_i) 0

/-- Assemble the `i`-th `PointLight` from the flat stride-3 uniform arrays, as in
the body of the light loop in `main`. -/
def lightAt (uLightPositions uLightColors uLightIntensities : ℕ → ℝ) (i : ℕ) :
    PointLight :=
  ⟨⟨uLightPositions (i * 3), uLightPositions (i * 3 + 1), uLightPositions (i * 3 + 2)⟩,
   ⟨uLightColors (i * 3), uLightColors (i * 3 + 1), uLightColors (i * 3 + 2)⟩,
   uLightIntensities i⟩

/-- The light loop of `main`: `for (int i = 0; i < MAX_LIGHTS; i++) { if (i >=
uLightCount) break; irradiance += f i; }` with `MAX_LIGHTS = 10` and a GLSL
`int` light count. -/
def mainLoop (f : ℕ → Vec3) (uLightCount : ℤ) (i : ℕ) (acc : Vec3) : Vec3 :=
  if _h : i < 10 then
    if (i : ℤ) ≥ uLightCount then acc
    else mainLoop f uLightCount (i + 1) (acc + f i)
  else acc
termination_by 10 - i

/-- Pre-tonemap irradiance accumulated by `main` over the active lights. -/
def irradianceSum (uLightPositions uLightColors uLightIntensities : ℕ → ℝ)
    (uLightCount : ℤ) (position normal w_o : Vec3) (roughness metallic : ℝ)
    (albedo : Vec3) : Vec3 :=
  mainLoop
    (fun i => calculateBRDF (lightAt uLightPositions uLightColors uLightIntensities i)
      position normal w_o roughness metallic albedo)
    uLightCount 0 0

/-- The fragment entry point `main`, as a function of its `in` varyings and
uniforms, returning `outFragColor`. -/
def main (vPositionWS vNormalWS ViewDirectionWS uMaterialAlbedo : Vec3)
    (uLightCount : ℤ) (uLightPositions uLightColors uLightIntensities : ℕ → ℝ)
    (roughness metallic : ℝ) : Vec4 :=
  let albedo := (sRGBToLinear ⟨uMaterialAlbedo, 1⟩).rgb
  let w_o := normalize ViewDirectionWS
  let normal := normalize vNormalWS
  let irradiance := irradianceSum uLightPositions uLightColors uLightIntensities
    uLightCount vPositionWS normal w_o roughness metallic albedo
  LinearTosRGB ⟨tonemap irradiance, 1⟩

/-- Spec section 4.3 step 4, written from the spec's formula but with the
shader's pi constant 3.14159: `D = a2 / (pi * ((n.h)^2 (a2-1) + 1)^2)` with
`a2 = roughness^2` and `n.h` clamped to be nonnegative. -/
def specGGX_D (normal halfVector : Vec3) (roughness : ℝ) : ℝ :=
  roughness ^ 2 /
    (3.14159 * ((max (dot normal halfVector) 0) ^ 2 * (roughness ^ 2 - 1) + 1) ^ 2)

/-- Spec section 4.3 step 4 read literally, with the mathematical constant pi. -/
def specGGX_D_pi (normal halfVector : Vec3) (roughness : ℝ) : ℝ :=
  roughness ^ 2 /
    (Real.pi * ((max (dot normal halfVector) 0) ^ 2 * (roughness ^ 2 - 1) + 1) ^ 2)

/-- Spec section 4.3 step 5: per-direction Schlick-GGX term `G1(v)` with the
clamped `n.v`. -/
def specG1 (normal v : Vec3) (k : ℝ) : ℝ :=
  max (dot normal v) 0 / (max (dot normal v) 0 * (1 - k) + k)

/-- Spec section 4.3 step 5: Smith joint form `G = G1(w_i) * G1(w_o)`. -/
def specSmithG (normal w_i w_o : Vec3) (k : ℝ) : ℝ :=
  specG1 normal w_i k * specG1 normal w_o k

/-- Spec section 4.3 steps 4-6 assembled: the un-Fresnel-weighted Cook-Torrance
specular scalar `(D * G) / (4 * max(n.w_o, eps) * max(n.w_i, eps))` with
`eps = 1e-5`, `k = (roughness+1)^2 / 8`, and the shader's pi constant in `D`. -/
def specCookTorrance (normal w_o w_i : Vec3) (roughness : ℝ) : ℝ :=
  specGGX_D normal (normalize (w_i + w_o)) roughness *
      specSmithG normal w_i w_o (((roughness + 1) ^ 2) / 8) /
    (4 * max (dot w_o normal) 0.00001 * max (dot w_i normal) 0.00001)

/-- Spec section 4.3 step 3: Fresnel-Schlick approximation. -/
def specFresnel (w_i w_o F0 : Vec3) : Vec3 :=
  F0 + (v3 1 - F0) * ((1 - max (dot w_o (normalize (w_i + w_o))) 0) ^ (5 : ℕ))

/-- Spec section 4.3 with a single Fresnel application, the intended behavior
named by claim C2: `(diffuse + F * spec) * irradiance * max(n.w_i, 0)` where the
specular scalar carries no Fresnel factor of its own. -/
def singleFresnelBRDF (light : PointLight) (position normal w_o : Vec3)
    (roughness metallic : ℝ) (albedo : Vec3) : Vec3 :=
  let w_i := normalize (light.pos - position)
  let F0 := mix (v3 0.04) albedo metallic
  let F := specFresnel w_i w_o F0
  let diffuse := (v3 1 - F) * (albedo / (3.14159 : ℝ)) * (1 - metallic)
  (diffuse + F * v3 (specCookTorrance normal w_o w_i roughness)) *
      calculatePointLight light position * max (dot normal w_i) 0

/-- The behavior claim C2 attributes to the code: Fresnel weighting applied
twice in the specular path (once inside the specular BRDF and once more as
`kS * specularBRDF`). -/
def doubleFresnelBRDF (light : PointLight) (position normal w_o : Vec3)
    (roughness metallic : ℝ) (albedo : Vec3) : Vec3 :=
  let w_i := normalize (light.pos - position)
  let F0 := mix (v3 0.04) albedo metallic
  let F := specFresnel w_i w_o F0
  let diffuse := (v3 1 - F) * (albedo / (3.14159 : ℝ)) * (1 - metallic)
  (diffuse + F * (F * v3 (specCookTorrance normal w_o w_i roughness))) *
      calculatePointLight light position * max (dot normal w_i) 0

@[simp] theorem zero_x : (0 : Vec3).x = 0 := rfl

@[simp] theorem zero_y : (0 : Vec3).y = 0 := rfl

@[simp] theorem zero_z : (0 : Vec3).z = 0 := rfl

@[simp] theorem add_x (u v : Vec3) : (u + v).x = u.x + v.x := rfl

@[simp] theorem add_y (u v : Vec3) : (u + v).y = u.y + v.y := rfl

@[simp] theorem add_z (u v : Vec3) : (u + v).z = u.z + v.z := rfl

@[simp] theorem sub_x (u v : Vec3) : (u - v).x = u.x - v.x := rfl

@[simp] theorem sub_y (u v : Vec3) : (u - v).y = u.y - v.y := rfl

@[simp] theorem sub_z (u v : Vec3) : (u - v).z = u.z - v.z := rfl

@[simp] theorem mul_x (u v : Vec3) : (u * v).x = u.x * v.x := rfl

@[simp] theorem mul_y (u v : Vec3) : (u * v).y = u.y * v.y := rfl

@[simp] theorem mul_z (u v : Vec3) : (u * v).z = u.z * v.z := rfl

@[simp] theorem div_x (u v : Vec3) : (u / v).x = u.x / v.x := rfl

@[simp] theorem div_y (u v : Vec3) : (u / v).y = u.y / v.y := rfl

@[simp] theorem div_z (u v : Vec3) : (u / v).z = u.z / v.z := rfl

@[simp] theorem smul_x (v : Vec3) (t : ℝ) : (v * t).x = v.x * t := rfl

@[simp] theorem smul_y (v : Vec3) (t : ℝ) : (v * t).y = v.y * t := rfl

@[simp] theorem smul_z (v : Vec3) (t : ℝ) : (v * t).z = v.z * t := rfl

@[simp] theorem sdiv_x (v : Vec3) (t : ℝ) : (v / t).x = v.x / t := rfl

@[simp] theorem sdiv_y (v : Vec3) (t : ℝ) : (v / t).y = v.y / t := rfl

@[simp] theorem sdiv_z (v : Vec3) (t : ℝ) : (v / t).z = v.z / t := rfl

@[simp] theorem v3_x (t : ℝ) : (v3 t).x = t := rfl

@[simp] theorem v3_y (t : ℝ) : (v3 t).y = t := rfl

@[simp] theorem v3_z (t : ℝ) : (v3 t).z = t := rfl

@[ext] theorem Vec3.ext {u v : Vec3} (hx : u.x = v.x) (hy : u.y = v.y)
    (hz : u.z = v.z) : u = v := by
  cases u; cases v
  dsimp only at hx hy hz
  subst hx; subst hy; subst hz
  rfl

theorem dot_self_nonneg (v : Vec3) : 0 ≤ dot v v := by
  simp only [dot]
  nlinarith [sq_nonneg v.x, sq_nonneg v.y, sq_nonneg v.z]

theorem dot_mul_self_le (u v : Vec3) : dot u v * dot u v ≤ dot u u * dot v v := by
  simp only [dot]
  nlinarith [sq_nonneg (u.x * v.y - u.y * v.x), sq_nonneg (u.x * v.z - u.z * v.x),
    sq_nonneg (u.y * v.z - u.z * v.y)]

theorem dot_normalize_self_le_one (v : Vec3) :
    dot (normalize v) (normalize v) ≤ 1 := by
  have hnn : 0 ≤ dot v v := dot_self_nonneg v
  have hid : dot (normalize v) (normalize v) = dot v v / (length v * length v) := by
    simp only [normalize, dot]
    field_simp
  rw [hid, length, Real.mul_self_sqrt hnn]
  rcases eq_or_lt_of_le hnn with h0 | hpos
  · rw [← h0]; norm_num
  · rw [div_self hpos.ne']

theorem dot_le_one_of_units (u v : Vec3) (hu : dot u u = 1) (hv : dot v v ≤ 1) :
    dot u v ≤ 1 := by
  nlinarith [dot_mul_self_le u v, dot_self_nonneg v]

theorem hmul_zero (v : Vec3) : v * (0 : ℝ) = 0 := by
  ext <;> simp

/-- C4: for every light, surface sample and material, if the dot product of the
surface normal with the unit direction from the surface toward the light is
nonpositive (light fully behind the surface), that light's contribution to the
accumulated irradiance is exactly the zero vector. -/
theorem C4_backface_zero (light : PointLight) (position normal w_o : Vec3)
    (roughness metallic : ℝ) (albedo : Vec3)
    (hback : dot normal (normalize (light.pos - position)) ≤ 0) :
    calculateBRDF light position normal w_o roughness metallic albedo = 0 := by
  simp only [calculateBRDF]
  rw [max_eq_right hback, hmul_zero]

/-- C4 witness: a light directly behind a surface facing `+z` contributes zero. -/
theorem C4_backface_zero_witness :
    dot ⟨0, 0, 1⟩ (normalize ((⟨⟨0, 0, -1⟩, ⟨1, 1, 1⟩, 1⟩ : PointLight).pos - ⟨0, 0, 0⟩)) ≤ 0 ∧
    calculateBRDF ⟨⟨0, 0, -1⟩, ⟨1, 1, 1⟩, 1⟩ ⟨0, 0, 0⟩ ⟨0, 0, 1⟩ ⟨0, 0, 1⟩ 0.5 0 ⟨1, 1, 1⟩ = 0 := by
  have hback : dot ⟨0, 0, 1⟩
      (normalize ((⟨⟨0, 0, -1⟩, ⟨1, 1, 1⟩, 1⟩ : PointLight).pos - ⟨0, 0, 0⟩)) ≤ 0 := by
    norm_num [dot, normalize, length, Real.sqrt_one]
  exact ⟨hback, C4_backface_zero _ _ _ _ _ _ _ hback⟩

theorem reinhard_nonneg (x : ℝ) (hx : 0 ≤ x) : 0 ≤ x / (x + 1) := by positivity

theorem reinhard_lt_one (x : ℝ) (hx : 0 ≤ x) : x / (x + 1) < 1 := by
  rw [div_lt_one (by linarith)]; linarith

theorem reinhard_mono (x y : ℝ) (hx : 0 ≤ x) (hxy : x ≤ y) :
    x / (x + 1) ≤ y / (y + 1) := by
  rw [div_le_div_iff₀ (by linarith) (by linarith)]
  nlinarith

/-- C7: the tone mapper is the per-channel Reinhard operator `c / (c + 1)`; on
componentwise-nonnegative input every output channel lies in `[0, 1)`, and the
map is non-decreasing channel by channel. -/
theorem C7_tonemap_reinhard (u v : Vec3)
    (hux : 0 ≤ u.x) (huy : 0 ≤ u.y) (huz : 0 ≤ u.z)
    (hvx : u.x ≤ v.x) (hvy : u.y ≤ v.y) (hvz : u.z ≤ v.z) :
    ((tonemap u).x = u.x / (u.x + 1) ∧ (tonemap u).y = u.y / (u.y + 1) ∧
      (tonemap u).z = u.z / (u.z + 1)) ∧
    (0 ≤ (tonemap u).x ∧ (tonemap u).x < 1 ∧ 0 ≤ (tonemap u).y ∧ (tonemap u).y < 1 ∧
      0 ≤ (tonemap u).z ∧ (tonemap u).z < 1) ∧
    ((tonemap u).x ≤ (tonemap v).x ∧ (tonemap u).y ≤ (tonemap v).y ∧
      (tonemap u).z ≤ (tonemap v).z) := by
  have hx : (tonemap u).x = u.x / (u.x + 1) := by simp [tonemap]
  have hy : (tonemap u).y = u.y / (u.y + 1) := by simp [tonemap]
  have hz : (tonemap u).z = u.z / (u.z + 1) := by simp [tonemap]
  have hx' : (tonemap v).x = v.x / (v.x + 1) := by simp [tonemap]
  have hy' : (tonemap v).y = v.y / (v.y + 1) := by simp [tonemap]
  have hz' : (tonemap v).z = v.z / (v.z + 1) := by simp [tonemap]
  refine ⟨⟨hx, hy, hz⟩, ?_, ?_⟩
  · rw [hx, hy, hz]
    exact ⟨reinhard_nonneg _ hux, reinhard_lt_one _ hux, reinhard_nonneg _ huy,
      reinhard_lt_one _ huy, reinhard_nonneg _ huz, reinhard_lt_one _ huz⟩
  · rw [hx, hy, hz, hx', hy', hz']
    exact ⟨reinhard_mono _ _ hux hvx, reinhard_mono _ _ huy hvy, reinhard_mono _ _ huz hvz⟩

/-- C7 witness at concrete radiance vectors. -/
theorem C7_tonemap_reinhard_witness :
    ((0:ℝ) ≤ 0 ∧ (0:ℝ) ≤ 1 ∧ (0:ℝ) ≤ 2 ∧ (0:ℝ) ≤ 1 ∧ (1:ℝ) ≤ 2 ∧ (2:ℝ) ≤ 3) ∧
    (0 ≤ (tonemap ⟨0, 1, 2⟩).x ∧ (tonemap ⟨0, 1, 2⟩).x < 1 ∧
      0 ≤ (tonemap ⟨0, 1, 2⟩).y ∧ (tonemap ⟨0, 1, 2⟩).y < 1 ∧
      0 ≤ (tonemap ⟨0, 1, 2⟩).z ∧ (tonemap ⟨0, 1, 2⟩).z < 1) ∧
    ((tonemap ⟨0, 1, 2⟩).x ≤ (tonemap ⟨1, 2, 3⟩).x ∧
      (tonemap ⟨0, 1, 2⟩).y ≤ (tonemap ⟨1, 2, 3⟩).y ∧
      (tonemap ⟨0, 1, 2⟩).z ≤ (tonemap ⟨1, 2, 3⟩).z) := by
  have h := C7_tonemap_reinhard ⟨0, 1, 2⟩ ⟨1, 2, 3⟩ (by norm_num) (by norm_num)
    (by norm_num) (by norm_num) (by norm_num) (by norm_num)
  exact ⟨by norm_num, h.2.1, h.2.2⟩

/-- C10: with positive roughness and unit normal and half-vector the GGX
denominator is strictly positive, so the division in `calculateDistributionGGX`
is well-defined; at roughness 0 with the half-vector equal to the normal the
code evaluates the unguarded quotient of numerator 0 by denominator 0. -/
theorem C10_ggx_denominator (normal halfVector : Vec3) (roughness : ℝ)
    (hr : 0 < roughness) (hn : dot normal normal = 1)
    (hh : dot halfVector halfVector = 1) :
    0 < GGXdenom normal halfVector roughness ∧
    GGXdenom ⟨0, 0, 1⟩ ⟨0, 0, 1⟩ 0 = 0 ∧
    calculateDistributionGGX ⟨0, 0, 1⟩ ⟨0, 0, 1⟩ 0 = (0 : ℝ) / 0 := by
  refine ⟨?_, ?_, ?_⟩
  · simp only [GGXdenom]
    set t := max (dot normal halfVector) 0 with ht
    have ht0 : 0 ≤ t := le_max_right _ _
    have ht1 : t ≤ 1 :=
      max_le (dot_le_one_of_units normal halfVector hn hh.le) (by norm_num)
    have htt : t * t ≤ 1 := by nlinarith
    have hinner : 0 < t * t * (roughness * roughness - 1) + 1 := by
      rcases le_or_lt (roughness * roughness) 1 with h | h
      · nlinarith [mul_pos hr hr,
          mul_nonneg (sub_nonneg.mpr htt) (sub_nonneg.mpr h)]
      · nlinarith [mul_nonneg (mul_nonneg ht0 ht0) (sub_nonneg.mpr h.le)]
    nlinarith
  · norm_num [GGXdenom, dot]
  · norm_num [calculateDistributionGGX, GGXdenom, dot]

/-- C10 witness at unit vectors and roughness 1. -/
theorem C10_ggx_denominator_witness :
    ((0:ℝ) < 1 ∧ dot ⟨0, 0, 1⟩ ⟨0, 0, 1⟩ = 1) ∧
    0 < GGXdenom ⟨0, 0, 1⟩ ⟨0, 0, 1⟩ 1 ∧
    GGXdenom ⟨0, 0, 1⟩ ⟨0, 0, 1⟩ 0 = 0 ∧
    calculateDistributionGGX ⟨0, 0, 1⟩ ⟨0, 0, 1⟩ 0 = (0 : ℝ) / 0 := by
  have hd : dot (⟨0, 0, 1⟩ : Vec3) ⟨0, 0, 1⟩ = 1 := by norm_num [dot]
  exact ⟨⟨by norm_num, hd⟩, C10_ggx_denominator ⟨0, 0, 1⟩ ⟨0, 0, 1⟩ 1 (by norm_num) hd hd⟩

/-- C3: the point-light falloff returns the zero vector when the surface point
coincides with the light (in this embedding division is total with `x / 0 = 0`,
matching the spec's "returns zero contribution, never divides by zero"); the
formula is applied unconditionally, with no special-casing of the singularity;
and as the distance tends to zero from above the returned value exceeds every
bound. -/
theorem C3_point_light_singularity :
    (∀ (light : PointLight) (position : Vec3),
        light.pos = position → calculatePointLight light position = 0) ∧
    (∀ (light : PointLight) (position : Vec3),
        calculatePointLight light position =
          light.color * (light.intensity /
            (4 * 3.14159 * length (light.pos - position) * length (light.pos - position)))) ∧
    (∀ M : ℝ, ∃ position : Vec3, position ≠ ⟨0, 0, 0⟩ ∧
        M < (calculatePointLight ⟨⟨0, 0, 0⟩, v3 1, 1⟩ position).x) := by
  refine ⟨?_, ?_, ?_⟩
  · intro light position h
    have hlen : length (light.pos - position) = 0 := by
      rw [h]
      have : dot (position - position) (position - position) = 0 := by
        simp [dot]
      rw [length, this, Real.sqrt_zero]
    ext <;> simp [calculatePointLight, hlen]
  · intro light position
    rfl
  · intro M
    have hA : (0 : ℝ) < |M| + 1 := by positivity
    set d : ℝ := 1 / (4 * (|M| + 1)) with hd
    have hdpos : 0 < d := by positivity
    refine ⟨⟨d, 0, 0⟩, ?_, ?_⟩
    · intro hcontra
      exact hdpos.ne' (congrArg Vec3.x hcontra)
    · have harg : dot ((⟨⟨0, 0, 0⟩, v3 1, 1⟩ : PointLight).pos - ⟨d, 0, 0⟩)
          ((⟨⟨0, 0, 0⟩, v3 1, 1⟩ : PointLight).pos - ⟨d, 0, 0⟩) = d ^ 2 := by
        simp [dot]
        ring
      have hlen : length ((⟨⟨0, 0, 0⟩, v3 1, 1⟩ : PointLight).pos - ⟨d, 0, 0⟩) = d := by
        rw [length, harg, Real.sqrt_sq hdpos.le]
      have hval : (calculatePointLight ⟨⟨0, 0, 0⟩, v3 1, 1⟩ ⟨d, 0, 0⟩).x =
          1 / (4 * 3.14159 * d * d) := by
        simp [calculatePointLight, hlen]
      rw [hval, hd]
      have key : 1 / (4 * 3.14159 * (1 / (4 * (|M| + 1))) * (1 / (4 * (|M| + 1)))) =
          16 * (|M| + 1) ^ 2 / 12.56636 := by
        field_simp
        ring
      rw [key, lt_div_iff₀ (by norm_num)]
      nlinarith [le_abs_self M, abs_nonneg M, sq_nonneg (|M|)]

/-- C3 witness: a light evaluated exactly at its own position yields zero. -/
theorem C3_point_light_singularity_witness :
    (⟨⟨1, 2, 3⟩, ⟨1, 1, 1⟩, 5⟩ : PointLight).pos = (⟨1, 2, 3⟩ : Vec3) ∧
    calculatePointLight ⟨⟨1, 2, 3⟩, ⟨1, 1, 1⟩, 5⟩ ⟨1, 2, 3⟩ = 0 :=
  ⟨rfl, C3_point_light_singularity.1 ⟨⟨1, 2, 3⟩, ⟨1, 1, 1⟩, 5⟩ ⟨1, 2, 3⟩ rfl⟩

theorem fresnelSchlick_x (w_i w_o F0 : Vec3) :
    (calculateFresnelSchlick w_i w_o F0).x =
      F0.x + (1 - F0.x) * (1 - max (dot w_o (normalize (w_i + w_o))) 0) ^ (5 : ℕ) := by
  simp [calculateFresnelSchlick]

theorem fresnelSchlick_y (w_i w_o F0 : Vec3) :
    (calculateFresnelSchlick w_i w_o F0).y =
      F0.y + (1 - F0.y) * (1 - max (dot w_o (normalize (w_i + w_o))) 0) ^ (5 : ℕ) := by
  simp [calculateFresnelSchlick]

theorem fresnelSchlick_z (w_i w_o F0 : Vec3) :
    (calculateFresnelSchlick w_i w_o F0).z =
      F0.z + (1 - F0.z) * (1 - max (dot w_o (normalize (w_i + w_o))) 0) ^ (5 : ℕ) := by
  simp [calculateFresnelSchlick]

theorem VoH_le_one (w_i w_o : Vec3) (hwo : dot w_o w_o = 1) :
    max (dot w_o (normalize (w_i + w_o))) 0 ≤ 1 :=
  max_le (dot_le_one_of_units w_o (normalize (w_i + w_o)) hwo
    (dot_normalize_self_le_one _)) zero_le_one

theorem fresnel_scalar_bound (F0c VoH m : ℝ) (h0 : 0 ≤ F0c) (h1 : F0c ≤ 1)
    (hv0 : 0 ≤ VoH) (hv1 : VoH ≤ 1) (hm0 : 0 ≤ m) (hm1 : m ≤ 1) :
    (1 - (F0c + (1 - F0c) * (1 - VoH) ^ (5 : ℕ))) * (1 - m) +
      (F0c + (1 - F0c) * (1 - VoH) ^ (5 : ℕ)) ≤ 1 := by
  set t := (1 - VoH) ^ (5 : ℕ) with ht
  have ht0 : 0 ≤ t := pow_nonneg (by linarith) 5
  have ht1 : t ≤ 1 := pow_le_one₀ (by linarith) (by linarith)
  have hFc1 : F0c + (1 - F0c) * t ≤ 1 := by
    nlinarith [mul_nonneg (sub_nonneg.mpr h1) (sub_nonneg.mpr ht1)]
  nlinarith [mul_nonneg (sub_nonneg.mpr hFc1) hm0]

/-- C5: with unit view and light directions and roughness, metallic and albedo
in their domains, the per-channel diffuse weight `(1 - F) * (1 - metallic)`
plus the specular Fresnel weight `F` never exceeds 1, for the shader's Fresnel
term at base reflectance `mix(vec3(0.04), albedo, metallic)`. -/
theorem C5_energy_conservation (w_i w_o albedo : Vec3) (roughness metallic : ℝ)
    (hwi : dot w_i w_i = 1) (hwo : dot w_o w_o = 1)
    (hr0 : 0 < roughness) (hr1 : roughness ≤ 1)
    (hm0 : 0 ≤ metallic) (hm1 : metallic ≤ 1)
    (hax0 : 0 ≤ albedo.x) (hax1 : albedo.x ≤ 1)
    (hay0 : 0 ≤ albedo.y) (hay1 : albedo.y ≤ 1)
    (haz0 : 0 ≤ albedo.z) (haz1 : albedo.z ≤ 1) :
    (1 - (calculateFresnelSchlick w_i w_o (mix (v3 0.04) albedo metallic)).x) * (1 - metallic) +
        (calculateFresnelSchlick w_i w_o (mix (v3 0.04) albedo metallic)).x ≤ 1 ∧
    (1 - (calculateFresnelSchlick w_i w_o (mix (v3 0.04) albedo metallic)).y) * (1 - metallic) +
        (calculateFresnelSchlick w_i w_o (mix (v3 0.04) albedo metallic)).y ≤ 1 ∧
    (1 - (calculateFresnelSchlick w_i w_o (mix (v3 0.04) albedo metallic)).z) * (1 - metallic) +
        (calculateFresnelSchlick w_i w_o (mix (v3 0.04) albedo metallic)).z ≤ 1 := by
  have hv0 : 0 ≤ max (dot w_o (normalize (w_i + w_o))) 0 := le_max_right _ _
  have hv1 := VoH_le_one w_i w_o hwo
  have hmx : (mix (v3 0.04) albedo metallic).x = 0.04 * (1 - metallic) + albedo.x * metallic := by
    simp [mix]
  have hmy : (mix (v3 0.04) albedo metallic).y = 0.04 * (1 - metallic) + albedo.y * metallic := by
    simp [mix]
  have hmz : (mix (v3 0.04) albedo metallic).z = 0.04 * (1 - metallic) + albedo.z * metallic := by
    simp [mix]
  refine ⟨?_, ?_, ?_⟩
  · rw [fresnelSchlick_x, hmx]
    exact fresnel_scalar_bound _ _ _ (by nlinarith) (by nlinarith) hv0 hv1 hm0 hm1
  · rw [fresnelSchlick_y, hmy]
    exact fresnel_scalar_bound _ _ _ (by nlinarith) (by nlinarith) hv0 hv1 hm0 hm1
  · rw [fresnelSchlick_z, hmz]
    exact fresnel_scalar_bound _ _ _ (by nlinarith) (by nlinarith) hv0 hv1 hm0 hm1

/-- C5 witness at unit vectors, white albedo, roughness 1, metallic 0. -/
theorem C5_energy_conservation_witness :
    (dot ⟨0, 0, 1⟩ ⟨0, 0, 1⟩ = 1 ∧ (0:ℝ) < 1 ∧ (0:ℝ) ≤ 0 ∧ (0:ℝ) ≤ 1 ∧ (1:ℝ) ≤ 1) ∧
    (1 - (calculateFresnelSchlick ⟨0, 0, 1⟩ ⟨0, 0, 1⟩ (mix (v3 0.04) ⟨1, 1, 1⟩ 0)).x) * (1 - 0) +
        (calculateFresnelSchlick ⟨0, 0, 1⟩ ⟨0, 0, 1⟩ (mix (v3 0.04) ⟨1, 1, 1⟩ 0)).x ≤ 1 := by
  have hd : dot (⟨0, 0, 1⟩ : Vec3) ⟨0, 0, 1⟩ = 1 := by norm_num [dot]
  refine ⟨⟨hd, by norm_num, by norm_num, by norm_num, by norm_num⟩, ?_⟩
  exact (C5_energy_conservation ⟨0, 0, 1⟩ ⟨0, 0, 1⟩ ⟨1, 1, 1⟩ 1 0 hd hd (by norm_num)
    (by norm_num) (by norm_num) (by norm_num) (by norm_num) (by norm_num) (by norm_num)
    (by norm_num) (by norm_num) (by norm_num)).1

theorem mainLoop_eq_sum (f : ℕ → Vec3) (count : ℤ) :
    ∀ (n i : ℕ) (acc : Vec3), 10 - i ≤ n →
      mainLoop f count i acc = acc + Finset.sum (Finset.Ico i (min count.toNat 10)) f := by
  intro n
  induction n with
  | zero =>
    intro i acc h
    rw [mainLoop, dif_neg (by omega)]
    rw [Finset.Ico_eq_empty (by omega), Finset.sum_empty, add_zero]
  | succ n ih =>
    intro i acc h
    by_cases hi : i < 10
    · rw [mainLoop, dif_pos hi]
      by_cases hc : (i : ℤ) ≥ count
      · rw [if_pos hc]
        have hcn : count.toNat ≤ i := Int.toNat_le.mpr hc
        rw [Finset.Ico_eq_empty (by omega), Finset.sum_empty, add_zero]
      · rw [if_neg hc]
        push_neg at hc
        have hlt : i < count.toNat := Int.lt_toNat.mpr hc
        have hmin : i < min count.toNat 10 := by omega
        rw [ih (i + 1) (acc + f i) (by omega)]
        rw [Finset.sum_eq_sum_Ico_succ_bot hmin f, add_assoc]
    · rw [mainLoop, dif_neg hi]
      rw [Finset.Ico_eq_empty (by omega), Finset.sum_empty, add_zero]

theorem irradianceSum_eq_sum (P C I : ℕ → ℝ) (count : ℤ)
    (position normal w_o : Vec3) (r m : ℝ) (albedo : Vec3) :
    irradianceSum P C I count position normal w_o r m albedo =
      Finset.sum (Finset.range (min count.toNat 10))
        (fun i => calculateBRDF (lightAt P C I i) position normal w_o r m albedo) := by
  rw [irradianceSum, mainLoop_eq_sum _ _ 10 0 0 (by omega), zero_add,
    Finset.range_eq_Ico]

/-- C8: the shading loop evaluates exactly the first `min(uLightCount, 10)`
lights and ignores the rest of the arrays; a light count of 0 yields exactly
zero pre-tonemap irradiance regardless of the array contents; a count above the
fixed maximum 10 is clamped so that only the first 10 lights are evaluated. -/
theorem C8_light_count_clamp (P C I : ℕ → ℝ) (count : ℤ)
    (position normal w_o : Vec3) (r m : ℝ) (albedo : Vec3) :
    (irradianceSum P C I count position normal w_o r m albedo =
      Finset.sum (Finset.range (min count.toNat 10))
        (fun i => calculateBRDF (lightAt P C I i) position normal w_o r m albedo)) ∧
    (count = 0 → irradianceSum P C I count position normal w_o r m albedo = 0) ∧
    (10 < count → irradianceSum P C I count position normal w_o r m albedo =
      Finset.sum (Finset.range 10)
        (fun i => calculateBRDF (lightAt P C I i) position normal w_o r m albedo)) := by
  refine ⟨irradianceSum_eq_sum P C I count position normal w_o r m albedo, ?_, ?_⟩
  · intro h
    subst h
    rw [irradianceSum_eq_sum]
    simp
  · intro h
    rw [irradianceSum_eq_sum]
    have hmin : min count.toNat 10 = 10 := by omega
    rw [hmin]

/-- C8 witness: zero light count gives black, count 11 is clamped to 10. -/
theorem C8_light_count_clamp_witness :
    ((0 : ℤ) = 0 ∧
      irradianceSum (fun _ => 0) (fun _ => 0) (fun _ => 0) 0 0 0 0 0.5 0 0 = 0) ∧
    ((10 : ℤ) < 11 ∧
      irradianceSum (fun _ => 0) (fun _ => 0) (fun _ => 0) 11 0 0 0 0.5 0 0 =
        Finset.sum (Finset.range 10)
          (fun i => calculateBRDF (lightAt (fun _ => 0) (fun _ => 0) (fun _ => 0) i)
            0 0 0 0.5 0 0)) :=
  ⟨⟨rfl, (C8_light_count_clamp (fun _ => 0) (fun _ => 0) (fun _ => 0) 0
      0 0 0 0.5 0 0).2.1 rfl⟩,
   ⟨by norm_num, (C8_light_count_clamp (fun _ => 0) (fun _ => 0) (fun _ => 0) 11
      0 0 0 0.5 0 0).2.2 (by norm_num)⟩⟩

/-- C1: with an in-range light count the fragment entry point equals the
composition: decode the albedo once at ingestion, sum the BRDF contributions of
the first `uLightCount` lights in linear space, Reinhard-tonemap the sum, and
gamma-encode exactly once at the output with alpha forced to 1.  No other
encode or decode occurs: the output is literally one `LinearTosRGB` applied to
the tonemapped sum over the once-decoded albedo. -/
theorem C1_pipeline_structure (vPositionWS vNormalWS ViewDirectionWS uMaterialAlbedo : Vec3)
    (uLightCount : ℤ) (P C I : ℕ → ℝ) (roughness metallic : ℝ)
    (h0 : 0 ≤ uLightCount) (h10 : uLightCount ≤ 10) :
    main vPositionWS vNormalWS ViewDirectionWS uMaterialAlbedo uLightCount P C I
        roughness metallic =
      LinearTosRGB
        ⟨tonemap (Finset.sum (Finset.range uLightCount.toNat)
            (fun i => calculateBRDF (lightAt P C I i) vPositionWS (normalize vNormalWS)
              (normalize ViewDirectionWS) roughness metallic
              ((sRGBToLinear ⟨uMaterialAlbedo, 1⟩).rgb))), 1⟩ ∧
    (main vPositionWS vNormalWS ViewDirectionWS uMaterialAlbedo uLightCount P C I
        roughness metallic).a = 1 := by
  have hmin : min uLightCount.toNat 10 = uLightCount.toNat := by omega
  constructor
  · simp only [main]
    rw [irradianceSum_eq_sum, hmin]
  · rfl

/-- C1 witness: a concrete one-light configuration. -/
theorem C1_pipeline_structure_witness :
    ((0 : ℤ) ≤ 1 ∧ (1 : ℤ) ≤ 10) ∧
    (main 0 ⟨0, 0, 1⟩ ⟨0, 0, 1⟩ ⟨1, 1, 1⟩ 1 (fun _ => 1) (fun _ => 1) (fun _ => 1) 0.5 0 =
      LinearTosRGB
        ⟨tonemap (Finset.sum (Finset.range (1 : ℤ).toNat)
            (fun i => calculateBRDF (lightAt (fun _ => 1) (fun _ => 1) (fun _ => 1) i)
              0 (normalize ⟨0, 0, 1⟩) (normalize ⟨0, 0, 1⟩) 0.5 0
              ((sRGBToLinear ⟨⟨1, 1, 1⟩, 1⟩).rgb))), 1⟩ ∧
      (main 0 ⟨0, 0, 1⟩ ⟨0, 0, 1⟩ ⟨1, 1, 1⟩ 1 (fun _ => 1) (fun _ => 1) (fun _ => 1) 0.5 0).a = 1) :=
  ⟨⟨by norm_num, by norm_num⟩,
   C1_pipeline_structure 0 ⟨0, 0, 1⟩ ⟨0, 0, 1⟩ ⟨1, 1, 1⟩ 1 (fun _ => 1) (fun _ => 1)
     (fun _ => 1) 0.5 0 (by norm_num) (by norm_num)⟩

theorem ggx_eq_spec (normal halfVector : Vec3) (roughness : ℝ) :
    calculateDistributionGGX normal halfVector roughness =
      specGGX_D normal halfVector roughness := by
  simp only [calculateDistributionGGX, GGXdenom, specGGX_D]
  ring

theorem specBRDF_eq_spec (albedo normal w_o w_i : Vec3) (roughness metallic : ℝ)
    (F0 : Vec3) :
    calculateSpecularBRDF albedo normal w_o w_i roughness metallic F0 =
      v3 (specCookTorrance normal w_o w_i roughness) := by
  simp only [calculateSpecularBRDF, specCookTorrance, specSmithG, specG1,
    calculateGeometrySmith, calculateGeometrySchlick, ggx_eq_spec]
  congr 1
  ring

/-- C6 (amended): the Cook-Torrance terms are computed exactly as the spec
formulas state them once the spec's symbolic pi is read as the shader's
constant 3.14159: `D = a2 / (3.14159 * ((n.h)^2 (a2-1) + 1)^2)` with clamped
`n.h`, `k = (roughness+1)^2 / 8`, `G = G1(w_i) * G1(w_o)` with clamped `n.v`,
and specular denominator `4 * max(n.w_o, 1e-5) * max(n.w_i, 1e-5)`. -/
theorem C6_cook_torrance_terms (normal halfVector albedo w_o w_i F0 : Vec3)
    (roughness metallic : ℝ) :
    calculateDistributionGGX normal halfVector roughness =
      specGGX_D normal halfVector roughness ∧
    calculateSpecularBRDF albedo normal w_o w_i roughness metallic F0 =
      v3 (specCookTorrance normal w_o w_i roughness) :=
  ⟨ggx_eq_spec normal halfVector roughness,
   specBRDF_eq_spec albedo normal w_o w_i roughness metallic F0⟩

/-- C6 counterexample: read with the mathematical constant pi, the claimed
formula for `D` differs from the code, which divides by 3.14159 instead. -/
theorem C6_pi_counterexample :
    calculateDistributionGGX ⟨0, 0, 1⟩ ⟨0, 0, 1⟩ 1 ≠
      specGGX_D_pi ⟨0, 0, 1⟩ ⟨0, 0, 1⟩ 1 := by
  have hpi : (3.141592 : ℝ) < Real.pi := Real.pi_gt_d6
  have hcode : calculateDistributionGGX ⟨0, 0, 1⟩ ⟨0, 0, 1⟩ 1 = 1 / 3.14159 := by
    norm_num [calculateDistributionGGX, GGXdenom, dot]
  have hspec : specGGX_D_pi ⟨0, 0, 1⟩ ⟨0, 0, 1⟩ 1 = 1 / Real.pi := by
    norm_num [specGGX_D_pi, dot]
  rw [hcode, hspec]
  intro h
  have hpi0 : (0 : ℝ) < Real.pi := by linarith
  rw [div_eq_div_iff (by norm_num) hpi0.ne'] at h
  linarith

/-- C2 (amended): the code applies the Fresnel weighting exactly once, not
twice: `calculateSpecularBRDF` computes `F` but its result does not depend on
the Fresnel input at all, and `calculateBRDF` equals the spec's intended
single-Fresnel-application combination `(diffuse + F * spec) * irradiance *
max(n.w_i, 0)`. -/
theorem C2_single_fresnel (light : PointLight) (position normal w_o w_i albedo F0 F0' : Vec3)
    (roughness metallic : ℝ) :
    calculateSpecularBRDF albedo normal w_o w_i roughness metallic F0 =
      calculateSpecularBRDF albedo normal w_o w_i roughness metallic F0' ∧
    calculateBRDF light position normal w_o roughness metallic albedo =
      singleFresnelBRDF light position normal w_o roughness metallic albedo := by
  constructor
  · rfl
  · simp only [calculateBRDF, singleFresnelBRDF, specBRDF_eq_spec,
      calculateFresnelSchlick, specFresnel, calculateDiffuseBRDF]

/-- C2 counterexample: at a concrete configuration the shader's output differs
from the double-Fresnel-weighting formula the claim attributes to it. -/
theorem C2_double_fresnel_counterexample :
    (calculateBRDF ⟨⟨0, 0, 1⟩, ⟨1, 1, 1⟩, 1⟩ ⟨0, 0, 0⟩ ⟨0, 0, 1⟩ ⟨0, 0, 1⟩ 1 0 ⟨1, 1, 1⟩).x ≠
      (doubleFresnelBRDF ⟨⟨0, 0, 1⟩, ⟨1, 1, 1⟩, 1⟩ ⟨0, 0, 0⟩ ⟨0, 0, 1⟩ ⟨0, 0, 1⟩ 1 0
        ⟨1, 1, 1⟩).x := by
  have hsqrt4 : Real.sqrt 4 = 2 := by
    rw [show (4 : ℝ) = 2 ^ 2 by norm_num, Real.sqrt_sq (by norm_num : (0:ℝ) ≤ 2)]
  norm_num [calculateBRDF, doubleFresnelBRDF, calculateSpecularBRDF,
    calculateFresnelSchlick, specFresnel, calculateDistributionGGX, GGXdenom,
    calculateGeometrySmith, calculateGeometrySchlick, calculateDiffuseBRDF,
    calculatePointLight, specCookTorrance, specSmithG, specG1, specGGX_D, mix,
    normalize, length, dot, v3, Real.sqrt_one, hsqrt4]

theorem exp_le_one_add_two_mul (t : ℝ) (h0 : 0 ≤ t) (h1 : t ≤ 1 / 2) :
    Real.exp t ≤ 1 + 2 * t := by
  have hexp : 0 < Real.exp t := Real.exp_pos t
  have h2 : 1 - t ≤ (Real.exp t)⁻¹ := by
    rw [← Real.exp_neg]
    linarith [Real.add_one_le_exp (-t)]
  have h4 : Real.exp t * (1 - t) ≤ 1 := by
    calc Real.exp t * (1 - t) ≤ Real.exp t * (Real.exp t)⁻¹ :=
          mul_le_mul_of_nonneg_left h2 hexp.le
      _ = 1 := mul_inv_cancel₀ hexp.ne'
  have h5 : (0 : ℝ) < 1 - t := by linarith
  nlinarith [mul_nonneg h0 (show (0:ℝ) ≤ 1 - 2 * t by linarith)]

theorem rpow_neg_small_le (u e L : ℝ) (hu0 : 0 < u) (hu1 : u ≤ 1) (he : 0 ≤ e)
    (hL : Real.log (1 / u) ≤ L) (heL : e * L ≤ 1 / 2) :
    u ^ (-e) ≤ 1 + 2 * (e * L) := by
  have hL0 : 0 ≤ Real.log (1 / u) := by
    rw [one_div, Real.log_inv]
    linarith [Real.log_nonpos hu0.le hu1]
  have hrw : u ^ (-e) = Real.exp (e * Real.log (1 / u)) := by
    rw [Real.rpow_def_of_pos hu0]
    congr 1
    rw [one_div, Real.log_inv]
    ring
  rw [hrw]
  calc Real.exp (e * Real.log (1 / u)) ≤ Real.exp (e * L) :=
        Real.exp_le_exp.mpr (mul_le_mul_of_nonneg_left hL he)
    _ ≤ 1 + 2 * (e * L) :=
        exp_le_one_add_two_mul _ (mul_nonneg he (hL0.trans hL)) heL

theorem rpow_sub_le_mul (u a e L : ℝ) (hu0 : 0 < u) (hu1 : u ≤ 1) (he : 0 ≤ e)
    (hL : Real.log (1 / u) ≤ L) (heL : e * L ≤ 1 / 2) :
    u ^ (a - e) ≤ u ^ a * (1 + 2 * (e * L)) := by
  have h1 : u ^ (a - e) = u ^ a * u ^ (-e) := by
    rw [show a - e = a + -e by ring, Real.rpow_add hu0]
  rw [h1]
  exact mul_le_mul_of_nonneg_left (rpow_neg_small_le u e L hu0 hu1 he hL heL)
    (Real.rpow_nonneg hu0.le a)

theorem log_inv_le (u c : ℝ) (hu0 : 0 < u) (hc : 1 / u ≤ c) :
    Real.log (1 / u) ≤ c - 1 := by
  have := Real.log_le_sub_one_of_pos (show (0:ℝ) < 1 / u by positivity)
  linarith

theorem rpow_one_sub_eps_bounds (u e : ℝ) (hu0 : 0 < u) (hu1 : u ≤ 1) (he : 0 ≤ e)
    (hsm : e * (1 / u - 1) ≤ 1 / 2) :
    u ≤ u ^ ((1:ℝ) - e) ∧ u ^ ((1:ℝ) - e) ≤ u + 2 * e * (1 - u) := by
  have hL : Real.log (1 / u) ≤ 1 / u - 1 := log_inv_le u (1 / u) hu0 le_rfl
  constructor
  · have h := Real.rpow_le_rpow_of_exponent_ge hu0 hu1
      (show (1:ℝ) - e ≤ 1 by linarith)
    rwa [Real.rpow_one] at h
  · have h := rpow_sub_le_mul u 1 e (1 / u - 1) hu0 hu1 he hL hsm
    rw [Real.rpow_one] at h
    calc u ^ ((1:ℝ) - e) ≤ u * (1 + 2 * (e * (1 / u - 1))) := h
      _ = u + 2 * e * (1 - u) := by field_simp; ring

theorem rpow_div_nat_pow (x : ℝ) (p q : ℕ) (hx : 0 ≤ x) (hq : 0 < q) :
    (x ^ ((p : ℝ) / (q : ℝ))) ^ q = x ^ p := by
  have hqne : ((q : ℕ) : ℝ) ≠ 0 := by exact_mod_cast hq.ne'
  rw [← Real.rpow_natCast (x ^ ((p : ℝ) / (q : ℝ))) q, ← Real.rpow_mul hx,
    div_mul_cancel₀ _ hqne, Real.rpow_natCast]

theorem rpow_div_le (x b : ℝ) (p q : ℕ) (hx : 0 ≤ x) (hb : 0 ≤ b) (hq : 0 < q)
    (h : x ^ p ≤ b ^ q) : x ^ ((p : ℝ) / (q : ℝ)) ≤ b := by
  by_contra hcon
  push_neg at hcon
  have : b ^ q < x ^ p := by
    rw [← rpow_div_nat_pow x p q hx hq]
    exact pow_lt_pow_left₀ hcon hb hq.ne'
  linarith

theorem rpow_div_ge (x b : ℝ) (p q : ℕ) (hx : 0 ≤ x) (hb : 0 ≤ b) (hq : 0 < q)
    (h : b ^ q ≤ x ^ p) : b ≤ x ^ ((p : ℝ) / (q : ℝ)) := by
  by_contra hcon
  push_neg at hcon
  have : x ^ p < b ^ q := by
    rw [← rpow_div_nat_pow x p q hx hq]
    exact pow_lt_pow_left₀ hcon (Real.rpow_nonneg hx _) hq.ne'
  linarith

theorem pow_le_of_rpow_div_le (x b : ℝ) (p q : ℕ) (hx : 0 ≤ x) (hq : 0 < q)
    (h : x ^ ((p : ℝ) / (q : ℝ)) ≤ b) : x ^ p ≤ b ^ q := by
  rw [← rpow_div_nat_pow x p q hx hq]
  exact pow_le_pow_left₀ (Real.rpow_nonneg hx _) h q

theorem encode_decode_close (c : ℝ) (h0 : 0 ≤ c) (h1 : c ≤ 1) :
    |LinearTosRGBC (sRGBToLinearC c) - c| ≤ 0.001 := by
  rw [sRGBToLinearC]
  by_cases hc : c ≤ 0.04045
  · rw [if_pos hc, LinearTosRGBC]
    by_cases hd : c * 0.0773993808 ≤ 0.0031308
    · rw [if_pos hd, abs_le]
      constructor <;> nlinarith
    · rw [if_neg hd]
      push_neg at hd
      set d := c * 0.0773993808 with hdd
      have hd0 : (0:ℝ) < d := lt_trans (by norm_num) hd
      have hd1 : d ≤ 1 := by nlinarith
      have hdc : 0.040449 < c := by nlinarith
      have hdle : d ≤ 0.003130805 := by nlinarith
      have h512 : (0.41666 : ℝ) = (5:ℝ)/12 - 1/150000 := by norm_num
      have hcast : ((5:ℝ)/12) = ((5:ℕ):ℝ)/((12:ℕ):ℝ) := by norm_num
      have hlow : (0.090472:ℝ) ≤ d ^ ((5:ℝ)/12) := by
        have ha : ((0.0031308:ℝ)) ^ ((5:ℝ)/12) ≤ d ^ ((5:ℝ)/12) :=
          Real.rpow_le_rpow (by norm_num) hd.le (by norm_num)
        have hb : (0.090472:ℝ) ≤ (0.0031308:ℝ) ^ ((5:ℝ)/12) := by
          rw [hcast]
          exact rpow_div_ge _ _ 5 12 (by norm_num) (by norm_num) (by norm_num) (by norm_num)
        linarith
      have hup : d ^ ((5:ℝ)/12) ≤ 0.090474 := by
        have ha : d ^ ((5:ℝ)/12) ≤ ((0.003130805:ℝ)) ^ ((5:ℝ)/12) :=
          Real.rpow_le_rpow hd0.le hdle (by norm_num)
        have hb : (0.003130805:ℝ) ^ ((5:ℝ)/12) ≤ 0.090474 := by
          rw [hcast]
          exact rpow_div_le _ _ 5 12 (by norm_num) (by norm_num) (by norm_num) (by norm_num)
        linarith
      have hxlow : d ^ ((5:ℝ)/12) ≤ d ^ ((0.41666:ℝ)) := by
        rw [h512]
        exact Real.rpow_le_rpow_of_exponent_ge hd0 hd1 (by norm_num)
      have hxup : d ^ ((0.41666:ℝ)) ≤ d ^ ((5:ℝ)/12) * (1 + 2 * ((1/150000) * 319)) := by
        rw [h512]
        refine rpow_sub_le_mul d ((5:ℝ)/12) (1/150000) 319 hd0 hd1 (by norm_num) ?_ (by norm_num)
        have hinv : 1 / d ≤ 320 := by
          rw [div_le_iff₀ hd0]
          nlinarith
        linarith [log_inv_le d 320 hd0 hinv]
      rw [abs_le]
      constructor
      · nlinarith [hlow, hxlow]
      · nlinarith [hup, hxup]
  · rw [if_neg hc]
    push_neg at hc
    set u := c * 0.9478672986 + 0.0521327014 with hu
    clear_value u
    have hu0 : (0:ℝ) < u := by nlinarith
    have hu1 : u ≤ 1 := by nlinarith
    have huln : (0.0904739:ℝ) < u := by nlinarith
    rw [LinearTosRGBC]
    by_cases hd : u ^ (2.4:ℝ) ≤ 0.0031308
    · rw [if_pos hd]
      have h24 : (2.4:ℝ) = ((12:ℕ):ℝ)/((5:ℕ):ℝ) := by norm_num
      have hulow : (0.0031307:ℝ) ≤ u ^ (2.4:ℝ) := by
        have ha : ((0.0904739:ℝ)) ^ (2.4:ℝ) ≤ u ^ (2.4:ℝ) :=
          Real.rpow_le_rpow (by norm_num) huln.le (by norm_num)
        have hb : (0.0031307:ℝ) ≤ (0.0904739:ℝ) ^ (2.4:ℝ) := by
          rw [h24]
          exact rpow_div_ge _ _ 12 5 (by norm_num) (by norm_num) (by norm_num) (by norm_num)
        linarith
      have hcup : c ≤ 0.0404501 := by
        have hub : u ≤ 0.090474 := by
          by_contra hcon
          push_neg at hcon
          have ha : (0.090474:ℝ) ^ (2.4:ℝ) ≤ u ^ (2.4:ℝ) :=
            Real.rpow_le_rpow (by norm_num) hcon.le (by norm_num)
          have hb : (0.00313081:ℝ) ≤ (0.090474:ℝ) ^ (2.4:ℝ) := by
            rw [h24]
            exact rpow_div_ge _ _ 12 5 (by norm_num) (by norm_num) (by norm_num) (by norm_num)
          linarith
        nlinarith
      rw [abs_le]
      constructor
      · nlinarith [hulow]
      · nlinarith [hd]
    · rw [if_neg hd]
      push_neg at hd
      have hcomp : (u ^ (2.4:ℝ)) ^ (0.41666:ℝ) = u ^ ((1:ℝ) - 0.000016) := by
        rw [← Real.rpow_mul hu0.le]
        norm_num
      rw [hcomp]
      have hcond : (0.000016:ℝ) * (1 / u - 1) ≤ 1 / 2 := by
        have hinv : 1 / u ≤ 12 := by
          rw [div_le_iff₀ hu0]
          nlinarith
        nlinarith
      obtain ⟨hl, hr⟩ := rpow_one_sub_eps_bounds u 0.000016 hu0 hu1 (by norm_num) hcond
      have hkey : 1.055 * u - 0.055 - c = 0.000000000023 * (c - 1) := by
        rw [hu]; ring
      rw [abs_le]
      constructor
      · linarith [hl, hkey, h0]
      · linarith [hr, hkey, h1, hu0]

set_option maxHeartbeats 2000000 in
theorem decode_encode_close (c : ℝ) (h0 : 0 ≤ c) (h1 : c ≤ 1) :
    |sRGBToLinearC (LinearTosRGBC c) - c| ≤ 0.001 := by
  rw [LinearTosRGBC]
  by_cases hc : c ≤ 0.0031308
  · rw [if_pos hc, sRGBToLinearC]
    rw [if_pos (show c * 12.92 ≤ 0.04045 by nlinarith)]
    rw [abs_le]
    constructor <;> nlinarith
  · rw [if_neg hc]
    push_neg at hc
    have hc0 : (0:ℝ) < c := by linarith
    have h512 : (0.41666 : ℝ) = (5:ℝ)/12 - 1/150000 := by norm_num
    have hcast : ((5:ℝ)/12) = ((5:ℕ):ℝ)/((12:ℕ):ℝ) := by norm_num
    have hs0 : (0:ℝ) < c ^ (0.41666:ℝ) := Real.rpow_pos_of_pos hc0 _
    have hs1 : c ^ (0.41666:ℝ) ≤ 1 := Real.rpow_le_one hc0.le h1 (by norm_num)
    have hcc : c ^ ((5:ℝ)/12) ≤ c ^ (0.41666:ℝ) := by
      rw [h512]
      exact Real.rpow_le_rpow_of_exponent_ge hc0 h1 (by norm_num)
    have hslow : (0.090472:ℝ) ≤ c ^ (0.41666:ℝ) := by
      have ha : ((0.0031308:ℝ)) ^ ((5:ℝ)/12) ≤ c ^ ((5:ℝ)/12) :=
        Real.rpow_le_rpow (by norm_num) hc.le (by norm_num)
      have hb : (0.090472:ℝ) ≤ (0.0031308:ℝ) ^ ((5:ℝ)/12) := by
        rw [hcast]
        exact rpow_div_ge _ _ 5 12 (by norm_num) (by norm_num) (by norm_num) (by norm_num)
      linarith
    rw [sRGBToLinearC]
    by_cases hdec : c ^ (0.41666:ℝ) * 1.055 - 0.055 ≤ 0.04045
    · rw [if_pos hdec]
      have hsup : c ^ (0.41666:ℝ) ≤ 0.090474 := by linarith
      have hA : c ^ ((5:ℝ)/12) ≤ 0.090474 := by linarith
      have hc5 : c ^ (5:ℕ) ≤ (0.090474:ℝ) ^ (12:ℕ) :=
        pow_le_of_rpow_div_le c 0.090474 5 12 hc0.le (by norm_num)
          (by rw [← hcast]; exact hA)
      have hcup : c ≤ 0.0031309 := by
        by_contra hcon
        push_neg at hcon
        have hlt : (0.0031309:ℝ) ^ (5:ℕ) < c ^ (5:ℕ) :=
          pow_lt_pow_left₀ hcon (by norm_num) (by norm_num)
        have hcmp : (0.090474:ℝ) ^ (12:ℕ) ≤ (0.0031309:ℝ) ^ (5:ℕ) := by norm_num
        linarith
      rw [abs_le]
      constructor
      · linarith [hslow, hcup]
      · linarith [hdec, hc]
    · rw [if_neg hdec]
      push_neg at hdec
      have hkey : (c ^ (0.41666:ℝ) * 1.055 - 0.055) * 0.9478672986 + 0.0521327014 =
          c ^ (0.41666:ℝ) * 1.000000000023 - 0.000000000023 := by ring
      rw [hkey]
      have hinlow : c ^ (0.41666:ℝ) * (1 - 0.00000000026) ≤
          c ^ (0.41666:ℝ) * 1.000000000023 - 0.000000000023 := by linarith [hslow]
      have hinup : c ^ (0.41666:ℝ) * 1.000000000023 - 0.000000000023 ≤
          c ^ (0.41666:ℝ) * (1 + 0.0000000001) := by linarith [hs0]
      have hin0 : (0:ℝ) ≤ c ^ (0.41666:ℝ) * (1 - 0.00000000026) := by nlinarith [hs0]
      have hup24 : (c ^ (0.41666:ℝ) * 1.000000000023 - 0.000000000023) ^ (2.4:ℝ) ≤
          (c ^ (0.41666:ℝ) * (1 + 0.0000000001)) ^ (2.4:ℝ) :=
        Real.rpow_le_rpow (le_trans hin0 hinlow) hinup (by norm_num)
      have hlo24 : (c ^ (0.41666:ℝ) * (1 - 0.00000000026)) ^ (2.4:ℝ) ≤
          (c ^ (0.41666:ℝ) * 1.000000000023 - 0.000000000023) ^ (2.4:ℝ) :=
        Real.rpow_le_rpow hin0 hinlow (by norm_num)
      have hfac1 : (c ^ (0.41666:ℝ) * (1 + 0.0000000001)) ^ (2.4:ℝ) =
          (c ^ (0.41666:ℝ)) ^ (2.4:ℝ) * ((1:ℝ) + 0.0000000001) ^ (2.4:ℝ) :=
        Real.mul_rpow hs0.le (by norm_num)
      have hfac2 : (c ^ (0.41666:ℝ) * (1 - 0.00000000026)) ^ (2.4:ℝ) =
          (c ^ (0.41666:ℝ)) ^ (2.4:ℝ) * ((1:ℝ) - 0.00000000026) ^ (2.4:ℝ) :=
        Real.mul_rpow hs0.le (by norm_num)
      have ht1 : ((1:ℝ) + 0.0000000001) ^ (2.4:ℝ) ≤ 1 + 0.0000000004 := by
        have h3 : ((1:ℝ) + 0.0000000001) ^ (2.4:ℝ) ≤ ((1:ℝ) + 0.0000000001) ^ ((3:ℕ):ℝ) :=
          Real.rpow_le_rpow_of_exponent_le (by norm_num) (by norm_num)
        rw [Real.rpow_natCast] at h3
        calc ((1:ℝ) + 0.0000000001) ^ (2.4:ℝ) ≤ ((1:ℝ) + 0.0000000001) ^ (3:ℕ) := h3
          _ ≤ 1 + 0.0000000004 := by norm_num
      have ht2 : (1:ℝ) - 0.0000000008 ≤ ((1:ℝ) - 0.00000000026) ^ (2.4:ℝ) := by
        have h3 : ((1:ℝ) - 0.00000000026) ^ ((3:ℕ):ℝ) ≤ ((1:ℝ) - 0.00000000026) ^ (2.4:ℝ) :=
          Real.rpow_le_rpow_of_exponent_ge (by norm_num) (by norm_num) (by norm_num)
        rw [Real.rpow_natCast] at h3
        calc (1:ℝ) - 0.0000000008 ≤ ((1:ℝ) - 0.00000000026) ^ (3:ℕ) := by norm_num
          _ ≤ ((1:ℝ) - 0.00000000026) ^ (2.4:ℝ) := h3
      have hcomp : (c ^ (0.41666:ℝ)) ^ (2.4:ℝ) = c ^ ((1:ℝ) - 0.000016) := by
        rw [← Real.rpow_mul hc0.le]
        norm_num
      have hcond : (0.000016:ℝ) * (1 / c - 1) ≤ 1 / 2 := by
        have hinv : 1 / c ≤ 320 := by
          rw [div_le_iff₀ hc0]
          linarith
        linarith
      obtain ⟨hdl, hdu⟩ := rpow_one_sub_eps_bounds c 0.000016 hc0 h1 (by norm_num) hcond
      have hs24l : c ≤ (c ^ (0.41666:ℝ)) ^ (2.4:ℝ) := by
        rw [hcomp]; exact hdl
      have hs24u : (c ^ (0.41666:ℝ)) ^ (2.4:ℝ) ≤ c + 0.000032 := by
        rw [hcomp]; linarith [hdu, h0]
      have hs24n : (0:ℝ) ≤ (c ^ (0.41666:ℝ)) ^ (2.4:ℝ) :=
        Real.rpow_nonneg (Real.rpow_nonneg hc0.le _) _
      have hs24b : (c ^ (0.41666:ℝ)) ^ (2.4:ℝ) ≤ 1.000032 := by linarith
      rw [abs_le]
      constructor
      · have hx : (c ^ (0.41666:ℝ)) ^ (2.4:ℝ) * ((1:ℝ) - 0.0000000008) ≤
            (c ^ (0.41666:ℝ)) ^ (2.4:ℝ) * ((1:ℝ) - 0.00000000026) ^ (2.4:ℝ) :=
          mul_le_mul_of_nonneg_left ht2 hs24n
        nlinarith [hlo24, hfac2, hx, hs24l, hs24b]
      · have hx : (c ^ (0.41666:ℝ)) ^ (2.4:ℝ) * ((1:ℝ) + 0.0000000001) ^ (2.4:ℝ) ≤
            (c ^ (0.41666:ℝ)) ^ (2.4:ℝ) * ((1:ℝ) + 0.0000000004) :=
          mul_le_mul_of_nonneg_left ht1 hs24n
        nlinarith [hup24, hfac1, hx, hs24u, hs24b]

theorem rpow_one_sub_eps_lower (u e : ℝ) (hu0 : 0 < u) (hu1 : u ≤ 1) (he : 0 ≤ e) :
    u * (1 + e * (1 - u)) ≤ u ^ ((1:ℝ) - e) := by
  have hL : (1:ℝ) - u ≤ Real.log (1 / u) := by
    have h := Real.log_le_sub_one_of_pos hu0
    rw [one_div, Real.log_inv]
    linarith
  have hrw : u ^ ((1:ℝ) - e) = u * Real.exp (e * Real.log (1 / u)) := by
    rw [Real.rpow_def_of_pos hu0,
      show Real.log u * (1 - e) = Real.log u + e * (-Real.log u) by ring,
      Real.exp_add, Real.exp_log hu0]
    congr 2
    rw [one_div, Real.log_inv]
  rw [hrw]
  have hexp : 1 + e * (1 - u) ≤ Real.exp (e * Real.log (1 / u)) := by
    have h1 : e * (1 - u) ≤ e * Real.log (1 / u) := mul_le_mul_of_nonneg_left hL he
    linarith [Real.add_one_le_exp (e * Real.log (1 / u))]
  exact mul_le_mul_of_nonneg_left hexp hu0.le

theorem roundtrip_not_exact : LinearTosRGBC (sRGBToLinearC (1 / 2)) ≠ 1 / 2 := by
  rw [sRGBToLinearC, if_neg (by norm_num)]
  rw [show (1:ℝ) / 2 * 0.9478672986 + 0.0521327014 = 0.5260663507 by norm_num]
  have hu0 : (0:ℝ) < 0.5260663507 := by norm_num
  have hd1 : ((0.5260663507:ℝ)) ^ ((3:ℕ):ℝ) ≤ (0.5260663507:ℝ) ^ (2.4:ℝ) :=
    Real.rpow_le_rpow_of_exponent_ge hu0 (by norm_num) (by norm_num)
  rw [Real.rpow_natCast] at hd1
  have hdgt : (0.0031308:ℝ) < (0.5260663507:ℝ) ^ (2.4:ℝ) := by
    have h3 : (0.0031308:ℝ) < (0.5260663507:ℝ) ^ (3:ℕ) := by norm_num
    linarith
  rw [LinearTosRGBC, if_neg (by linarith)]
  have hcomp : ((0.5260663507:ℝ) ^ (2.4:ℝ)) ^ (0.41666:ℝ) =
      (0.5260663507:ℝ) ^ ((1:ℝ) - 0.000016) := by
    rw [← Real.rpow_mul hu0.le]
    norm_num
  rw [hcomp]
  have hlower := rpow_one_sub_eps_lower 0.5260663507 0.000016 hu0 (by norm_num) (by norm_num)
  intro heq
  nlinarith [hlower]

/-- C9: for every RGB triple with channels in `[0, 1]`, both round trips
`encode(decode(c))` and `decode(encode(c))` stay within `1e-3` of `c` in every
channel, and the round trip is not exact (witnessed at channel value `1/2`),
because the decode uses a monomial fit of the sRGB transfer curve. -/
theorem C9_colorspace_roundtrip (v : Vec4)
    (hx0 : 0 ≤ v.rgb.x) (hx1 : v.rgb.x ≤ 1) (hy0 : 0 ≤ v.rgb.y) (hy1 : v.rgb.y ≤ 1)
    (hz0 : 0 ≤ v.rgb.z) (hz1 : v.rgb.z ≤ 1) :
    (|(LinearTosRGB (sRGBToLinear v)).rgb.x - v.rgb.x| ≤ 0.001 ∧
     |(LinearTosRGB (sRGBToLinear v)).rgb.y - v.rgb.y| ≤ 0.001 ∧
     |(LinearTosRGB (sRGBToLinear v)).rgb.z - v.rgb.z| ≤ 0.001) ∧
    (|(sRGBToLinear (LinearTosRGB v)).rgb.x - v.rgb.x| ≤ 0.001 ∧
     |(sRGBToLinear (LinearTosRGB v)).rgb.y - v.rgb.y| ≤ 0.001 ∧
     |(sRGBToLinear (LinearTosRGB v)).rgb.z - v.rgb.z| ≤ 0.001) ∧
    LinearTosRGBC (sRGBToLinearC (1 / 2)) ≠ 1 / 2 :=
  ⟨⟨encode_decode_close _ hx0 hx1, encode_decode_close _ hy0 hy1,
    encode_decode_close _ hz0 hz1⟩,
   ⟨decode_encode_close _ hx0 hx1, decode_encode_close _ hy0 hy1,
    decode_encode_close _ hz0 hz1⟩,
   roundtrip_not_exact⟩

/-- C9 witness at the triple `(0, 1/2, 1)`. -/
theorem C9_colorspace_roundtrip_witness :
    ((0:ℝ) ≤ 0 ∧ (0:ℝ) ≤ 1 ∧ (0:ℝ) ≤ 1 / 2 ∧ (1/2:ℝ) ≤ 1 ∧ (0:ℝ) ≤ 1 ∧ (1:ℝ) ≤ 1) ∧
    ((|(LinearTosRGB (sRGBToLinear ⟨⟨0, 1/2, 1⟩, 1⟩)).rgb.x - (⟨⟨0, 1/2, 1⟩, 1⟩ : Vec4).rgb.x| ≤ 0.001 ∧
      |(LinearTosRGB (sRGBToLinear ⟨⟨0, 1/2, 1⟩, 1⟩)).rgb.y - (⟨⟨0, 1/2, 1⟩, 1⟩ : Vec4).rgb.y| ≤ 0.001 ∧
      |(LinearTosRGB (sRGBToLinear ⟨⟨0, 1/2, 1⟩, 1⟩)).rgb.z - (⟨⟨0, 1/2, 1⟩, 1⟩ : Vec4).rgb.z| ≤ 0.001) ∧
     (|(sRGBToLinear (LinearTosRGB ⟨⟨0, 1/2, 1⟩, 1⟩)).rgb.x - (⟨⟨0, 1/2, 1⟩, 1⟩ : Vec4).rgb.x| ≤ 0.001 ∧
      |(sRGBToLinear (LinearTosRGB ⟨⟨0, 1/2, 1⟩, 1⟩)).rgb.y - (⟨⟨0, 1/2, 1⟩, 1⟩ : Vec4).rgb.y| ≤ 0.001 ∧
      |(sRGBToLinear (LinearTosRGB ⟨⟨0, 1/2, 1⟩, 1⟩)).rgb.z - (⟨⟨0, 1/2, 1⟩, 1⟩ : Vec4).rgb.z| ≤ 0.001) ∧
     LinearTosRGBC (sRGBToLinearC (1 / 2)) ≠ 1 / 2) :=
  ⟨⟨le_refl 0, by norm_num, by norm_num, by norm_num, by norm_num, by norm_num⟩,
   C9_colorspace_roundtrip ⟨⟨0, 1/2, 1⟩, 1⟩ (le_refl 0) (by norm_num) (by norm_num)
     (by norm_num) (by norm_num) (by norm_num)⟩

end

end PBR
